import Mathlib

/-!
# Formal model of `src/train.py` (character-level GPT language model)

Shallow embedding of the PyTorch program over the reals.  Tensors are
functions on `Fin`-indexed axes, so every shape statement of the spec is a
typing fact of the embedding.  Conventions, fixed once here:

* `float('-inf')` is modelled as `none : Option ℝ`, and the exponential is
  extended by `exp(-inf) = 0` (`oexp`), which is exactly how IEEE softmax
  treats `-inf` entries as long as some entry of the row is finite.
* Dropout layers are modelled in evaluation mode (identity), matching the
  claims, which are all stated "with dropout disabled".
* Hyperparameters (`block_size`, `n_embd`, `n_head`, `vocab_size`, ...) are
  universally quantified parameters (`bs`, `C`, `nh`, `V`, ...); the source
  fixes them to 256, 384, 6 and the corpus alphabet size respectively.
-/

/-- Extended exponential: `exp` on finite reals, `exp(-inf) = 0`
(`-inf` is modelled as `none`). -/
noncomputable def oexp : Option ℝ → ℝ
  | none => 0
  | some x => Real.exp x

/-- `F.softmax(wei, dim=-1)` applied to a row that may hold `-inf`
entries (as produced by `masked_fill`), `src/train.py` line 79. -/
noncomputable def softmaxMasked {T : ℕ} (r : Fin T → Option ℝ) : Fin T → ℝ :=
  fun j => oexp (r j) / ∑ k, oexp (r k)

/-- `F.softmax(z, dim=-1)` on an all-finite row (`generate`, line 183). -/
noncomputable def softmaxR {V : ℕ} (z : Fin V → ℝ) : Fin V → ℝ :=
  fun j => Real.exp (z j) / ∑ k, Real.exp (z k)

/-- The buffer `torch.tril(torch.ones(n, n))` of `Head.__init__` (line 66):
ones on and below the diagonal, zeros strictly above. -/
def trilMask (n : ℕ) : Fin n → Fin n → ℝ :=
  fun i j => if (j : ℕ) ≤ (i : ℕ) then 1 else 0

/-- `w.masked_fill(m == 0, float('-inf'))` (line 78): entries where the
mask is `0` become `-inf` (`none`), all others are kept. -/
noncomputable def maskedFill {T : ℕ} (w : Fin T → Fin T → ℝ) (m : Fin T → Fin T → ℝ) :
    Fin T → Fin T → Option ℝ :=
  fun i j => if m i j = 0 then none else some (w i j)

/-- The slice `self.tril[:T, :T]` of the stored `block_size × block_size`
mask, for an active context length `T ≤ block_size`. -/
def slicedTril (bs : ℕ) {T : ℕ} (hT : T ≤ bs) : Fin T → Fin T → ℝ :=
  fun i j => trilMask bs (Fin.castLE hT i) (Fin.castLE hT j)

/-- `nn.Linear(inF, outF, bias=False)` weight applied to a vector. -/
noncomputable def linearNoBias {inF outF : ℕ} (W : Fin outF → Fin inF → ℝ)
    (x : Fin inF → ℝ) : Fin outF → ℝ :=
  fun j => ∑ c, W j c * x c

/-- Weights of `nn.Linear(inF, outF)` with its (default) bias. -/
structure LinearLayer (inF outF : ℕ) where
  weight : Fin outF → Fin inF → ℝ
  bias : Fin outF → ℝ

/-- `nn.Linear` forward: `x ↦ W x + b`. -/
noncomputable def LinearLayer.apply {inF outF : ℕ} (l : LinearLayer inF outF)
    (x : Fin inF → ℝ) : Fin outF → ℝ :=
  fun j => (∑ c, l.weight j c * x c) + l.bias j

/-- Parameters of one self-attention `Head` (lines 59-67): the three
bias-free projections `key`, `query`, `value` of `nn.Linear(n_embd,
head_size, bias=False)`.  The `tril` buffer is not a parameter: it is the
fixed matrix `trilMask bs`. -/
structure Head (C hs : ℕ) where
  key : Fin hs → Fin C → ℝ
  query : Fin hs → Fin C → ℝ
  value : Fin hs → Fin C → ℝ

/-- Raw attention scores `q @ k.transpose(-2,-1) * k.shape[-1]**-0.5`
(line 77); `k.shape[-1]` is `head_size`. -/
noncomputable def Head.scores {C hs T : ℕ} (p : Head C hs) (x : Fin T → Fin C → ℝ) :
    Fin T → Fin T → ℝ :=
  fun i j => (∑ s, linearNoBias p.query (x i) s * linearNoBias p.key (x j) s) *
    ((hs : ℝ) ^ (-(1 / 2) : ℝ))

/-- `wei.masked_fill(self.tril[:T,:T] == 0, float('-inf'))` (line 78). -/
noncomputable def Head.masked {bs C hs T : ℕ} (hT : T ≤ bs) (p : Head C hs)
    (x : Fin T → Fin C → ℝ) : Fin T → Fin T → Option ℝ :=
  maskedFill (p.scores x) (slicedTril bs hT)

/-- The attention weights `wei = F.softmax(wei, dim=-1)` (line 79). -/
noncomputable def Head.wei {bs C hs T : ℕ} (hT : T ≤ bs) (p : Head C hs)
    (x : Fin T → Fin C → ℝ) : Fin T → Fin T → ℝ :=
  fun i => softmaxMasked (p.masked hT x i)

/-- `Head.forward` (lines 69-84), dropout in evaluation mode: the
weights-weighted aggregation `wei @ v` of the value vectors. -/
noncomputable def Head.forward {bs C hs T : ℕ} (hT : T ≤ bs) (p : Head C hs)
    (x : Fin T → Fin C → ℝ) : Fin T → Fin hs → ℝ :=
  fun t s => ∑ j, p.wei hT x t j * linearNoBias p.value (x j) s

/-- The Attention Head algorithm as the spec words it (§4.1 / claim C3):
scores `query·keyᵀ` divided by `sqrt(head_size)`, `-inf` exactly at
`j > i`, softmax rows, weighted sum of values. -/
noncomputable def Head.forwardSpec {C hs T : ℕ} (p : Head C hs)
    (x : Fin T → Fin C → ℝ) : Fin T → Fin hs → ℝ :=
  fun t s => ∑ j,
    softmaxMasked (fun j' => if (t : ℕ) < (j' : ℕ) then none else
      some ((∑ u, linearNoBias p.query (x t) u * linearNoBias p.key (x j') u) /
        Real.sqrt hs)) j *
    linearNoBias p.value (x j) s

lemma oexp_nonneg (r : Option ℝ) : 0 ≤ oexp r := by
  cases r with
  | none => simp [oexp]
  | some x => exact (Real.exp_pos x).le

lemma slicedTril_eq {bs T : ℕ} (hT : T ≤ bs) :
    slicedTril bs hT = trilMask T := by
  funext i j
  simp [slicedTril, trilMask, Fin.castLE]

lemma slicedTril_eq_zero_iff {bs T : ℕ} (hT : T ≤ bs) (i j : Fin T) :
    slicedTril bs hT i j = 0 ↔ (i : ℕ) < (j : ℕ) := by
  rw [slicedTril_eq hT]
  unfold trilMask
  by_cases h : (j : ℕ) ≤ (i : ℕ) <;> simp [h] <;> omega

lemma maskedFill_tril_diag {bs T : ℕ} (hT : T ≤ bs) (w : Fin T → Fin T → ℝ)
    (i : Fin T) : maskedFill w (slicedTril bs hT) i i = some (w i i) := by
  have h0 : ¬ slicedTril bs hT i i = 0 := by
    rw [slicedTril_eq_zero_iff hT]; omega
  simp [maskedFill, h0]

lemma maskedFill_tril_denom_pos {bs T : ℕ} (hT : T ≤ bs)
    (w : Fin T → Fin T → ℝ) (i : Fin T) :
    0 < ∑ j, oexp (maskedFill w (slicedTril bs hT) i j) := by
  have hmem : i ∈ (Finset.univ : Finset (Fin T)) := Finset.mem_univ i
  refine Finset.sum_pos' (fun j _ => oexp_nonneg _) ⟨i, hmem, ?_⟩
  rw [maskedFill_tril_diag hT]
  exact Real.exp_pos _

lemma maskedFill_tril_future {bs T : ℕ} (hT : T ≤ bs) (w : Fin T → Fin T → ℝ)
    (i j : Fin T) (h : (i : ℕ) < (j : ℕ)) :
    maskedFill w (slicedTril bs hT) i j = none := by
  have h0 : slicedTril bs hT i j = 0 := (slicedTril_eq_zero_iff hT i j).2 h
  simp [maskedFill, h0]

lemma Head.wei_future {bs C hs T : ℕ} (hT : T ≤ bs) (p : Head C hs)
    (x : Fin T → Fin C → ℝ) (i j : Fin T) (h : (i : ℕ) < (j : ℕ)) :
    p.wei hT x i j = 0 := by
  unfold Head.wei softmaxMasked
  rw [Head.masked, maskedFill_tril_future hT _ _ _ h]
  simp [oexp]

lemma Head.wei_row_sum {bs C hs T : ℕ} (hT : T ≤ bs) (p : Head C hs)
    (x : Fin T → Fin C → ℝ) (i : Fin T) : ∑ j, p.wei hT x i j = 1 := by
  unfold Head.wei softmaxMasked
  rw [← Finset.sum_div]
  exact div_self (ne_of_gt (maskedFill_tril_denom_pos hT _ i))

/-- Data for witnesses: a concrete one-dimensional head with zero weights. -/
def head0 : Head 1 1 :=
  ⟨fun _ _ => 0, fun _ _ => 0, fun _ _ => 0⟩

/-- Data for witnesses: the concrete zero input of shape `(T, C) = (1, 1)`. -/
def x0 : Fin 1 → Fin 1 → ℝ := fun _ _ => 0

/-- C7: for every input with `T ≤ block_size`, every row of the attention
weight matrix of a head sums to `1`, and the weight is exactly `0` at every
masked (future) position `j > i`. -/
theorem head_wei_invariant {bs C hs T : ℕ} (hT : T ≤ bs) (p : Head C hs)
    (x : Fin T → Fin C → ℝ) :
    (∀ i : Fin T, ∑ j, p.wei hT x i j = 1) ∧
    (∀ i j : Fin T, (i : ℕ) < (j : ℕ) → p.wei hT x i j = 0) :=
  ⟨fun i => Head.wei_row_sum hT p x i, fun i j h => Head.wei_future hT p x i j h⟩

theorem head_wei_invariant_witness :
    (1 : ℕ) ≤ 1 ∧
    ((∀ i : Fin 1, ∑ j, head0.wei (le_refl 1) x0 i j = 1) ∧
     (∀ i j : Fin 1, (i : ℕ) < (j : ℕ) → head0.wei (le_refl 1) x0 i j = 0)) :=
  ⟨by decide, head_wei_invariant (le_refl 1) head0 x0⟩

/-- C10: under the sliced lower-triangular mask, the diagonal entry of every
masked score row stays finite (it is never `-inf`), so the softmax
denominator of that row is strictly positive: the attention softmax is never
applied to an all-`-inf` row. -/
theorem masked_row_never_all_neg_inf {bs T : ℕ} (hT : T ≤ bs)
    (w : Fin T → Fin T → ℝ) (i : Fin T) :
    maskedFill w (slicedTril bs hT) i i = some (w i i) ∧
    0 < ∑ j, oexp (maskedFill w (slicedTril bs hT) i j) :=
  ⟨maskedFill_tril_diag hT w i, maskedFill_tril_denom_pos hT w i⟩

theorem masked_row_never_all_neg_inf_witness :
    (1 : ℕ) ≤ 1 ∧
    (maskedFill (fun _ _ => (0 : ℝ)) (slicedTril 1 (le_refl 1)) 0 0 = some 0 ∧
     0 < ∑ j, oexp (maskedFill (fun _ _ => (0 : ℝ)) (slicedTril 1 (le_refl 1)) 0 j)) :=
  ⟨by decide, masked_row_never_all_neg_inf (le_refl 1) (fun _ _ => (0 : ℝ)) 0⟩

lemma rpow_neg_half_eq_inv_sqrt (n : ℕ) :
    ((n : ℝ) ^ (-(1 / 2) : ℝ)) = (Real.sqrt n)⁻¹ := by
  rw [Real.rpow_neg (Nat.cast_nonneg n), Real.sqrt_eq_rpow]

/-- C3: `Head.forward` coincides with the head algorithm as the spec states
it — scores `q·kᵀ / sqrt(head_size)`, `-inf` exactly for `j > i` (via the
stored mask sliced to `T × T`), row softmax, weighted sum of values. -/
theorem head_forward_eq_spec {bs C hs T : ℕ} (hT : T ≤ bs) (p : Head C hs)
    (x : Fin T → Fin C → ℝ) :
    p.forward hT x = p.forwardSpec x := by
  funext t s
  unfold Head.forward Head.forwardSpec
  refine Finset.sum_congr rfl (fun j _ => ?_)
  have hmask : p.masked hT x t = fun j' : Fin T => if (t : ℕ) < (j' : ℕ) then none else
      some ((∑ u, linearNoBias p.query (x t) u * linearNoBias p.key (x j') u) /
        Real.sqrt hs) := by
    funext j'
    by_cases h : (t : ℕ) < (j' : ℕ)
    · rw [Head.masked, maskedFill_tril_future hT _ _ _ h]
      simp [h]
    · have h0 : ¬ slicedTril bs hT t j' = 0 := by
        rw [slicedTril_eq_zero_iff hT]; omega
      rw [Head.masked, maskedFill]
      simp only [h0, if_neg, h, if_false]
      rw [Head.scores, rpow_neg_half_eq_inv_sqrt, div_eq_mul_inv]
  rw [Head.wei, hmask]

theorem head_forward_eq_spec_witness :
    (1 : ℕ) ≤ 1 ∧ head0.forward (le_refl 1) x0 = head0.forwardSpec x0 :=
  ⟨by decide, head_forward_eq_spec (le_refl 1) head0 x0⟩

/-- `torch.cat([h(x) for h in self.heads], dim=-1)` (line 96): slot `d` of
the concatenated vector reads head `d / hs`, coordinate `d % hs`. -/
def concatHeads {nh hs : ℕ} (H : Fin nh → Fin hs → ℝ) (d : Fin (nh * hs)) : ℝ :=
  have hpos : 0 < hs := by
    rcases Nat.eq_zero_or_pos hs with h | h
    · subst h; exact absurd d.2 (by simp)
    · exact h
  H ⟨d.1 / hs, (Nat.div_lt_iff_lt_mul hpos).2 d.2⟩ ⟨d.1 % hs, Nat.mod_lt _ hpos⟩

/-- Parameters of `MultiHeadAttention` (lines 86-93): `num_heads` heads and
the output projection `nn.Linear(head_size * num_heads, n_embd)`. -/
structure MultiHeadAttention (C hs nh : ℕ) where
  heads : Fin nh → Head C hs
  proj : LinearLayer (nh * hs) C

/-- `MultiHeadAttention.forward` (lines 95-98), dropout in evaluation mode:
concatenate the head outputs along the channel axis and project. -/
noncomputable def MultiHeadAttention.forward {bs C hs nh T : ℕ} (hT : T ≤ bs)
    (p : MultiHeadAttention C hs nh) (x : Fin T → Fin C → ℝ) :
    Fin T → Fin C → ℝ :=
  fun t => p.proj.apply (concatHeads (fun i s => (p.heads i).forward hT x t s))

/-- Parameters of `FeedForward` (lines 100-110): `nn.Linear(n_embd,
4*n_embd)`, ReLU, `nn.Linear(4*n_embd, n_embd)`, dropout. -/
structure FeedForward (C : ℕ) where
  lin1 : LinearLayer C (4 * C)
  lin2 : LinearLayer (4 * C) C

/-- `FeedForward.forward` (lines 111-112), dropout in evaluation mode;
`ReLU(z) = max z 0`. -/
noncomputable def FeedForward.forward {C : ℕ} (p : FeedForward C)
    (x : Fin C → ℝ) : Fin C → ℝ :=
  p.lin2.apply (fun j => max (p.lin1.apply x j) 0)

/-- Parameters of `nn.LayerNorm(n_embd)`: the elementwise affine pair. -/
structure LayerNorm (C : ℕ) where
  gamma : Fin C → ℝ
  beta : Fin C → ℝ

/-- `nn.LayerNorm` forward with its default `eps = 1e-5`: normalize by the
mean and biased variance over the channel axis, then scale and shift. -/
noncomputable def LayerNorm.apply {C : ℕ} (p : LayerNorm C) (x : Fin C → ℝ) :
    Fin C → ℝ :=
  fun c => p.gamma c *
    ((x c - (∑ u, x u) / C) /
      Real.sqrt ((∑ u, (x u - (∑ u', x u') / C) ^ 2) / C + 1 / 100000)) +
  p.beta c

/-- Parameters of a transformer `Block` (lines 114-124). -/
structure Block (C hs nh : ℕ) where
  sa : MultiHeadAttention C hs nh
  ffwd : FeedForward C
  ln1 : LayerNorm C
  ln2 : LayerNorm C

/-- `Block.forward` (lines 126-129): `x = x + self.sa(self.ln1(x))` then
`x = x + self.ffwd(self.ln2(x))`. -/
noncomputable def Block.forward {bs C hs nh T : ℕ} (hT : T ≤ bs)
    (p : Block C hs nh) (x : Fin T → Fin C → ℝ) : Fin T → Fin C → ℝ :=
  let x1 := fun t c => x t c + p.sa.forward hT (fun u => p.ln1.apply (x u)) t c
  fun t c => x1 t c + p.ffwd.forward (p.ln2.apply (x1 t)) c

/-- `MultiHeadAttention.__init__(num_heads, head_size)` (lines 89-93): builds
the heads and the projection.  The body holds no validation and no `raise`;
construction always succeeds, which the `Except` return type records. -/
def MultiHeadAttention.init (C hs nh : ℕ) (heads : Fin nh → Head C hs)
    (proj : LinearLayer (nh * hs) C) :
    Except String (MultiHeadAttention C hs nh) :=
  Except.ok ⟨heads, proj⟩

/-- `Block.__init__(n_embd, n_head)` (lines 117-124): computes `head_size =
n_embd // n_head` by floor division and builds the sub-modules.  The body
holds no divisibility validation and no `raise`. -/
def Block.init (C nh : ℕ) (heads : Fin nh → Head C (C / nh))
    (proj : LinearLayer (nh * (C / nh)) C) (ffwd : FeedForward C)
    (ln1 ln2 : LayerNorm C) : Except String (Block C (C / nh) nh) :=
  (MultiHeadAttention.init C (C / nh) nh heads proj).bind fun sa =>
    Except.ok ⟨sa, ffwd, ln1, ln2⟩

/-- Parameters of `GPTLanguageModel` (lines 131-141). -/
structure GPTLanguageModel (V bs C nh : ℕ) where
  token_embedding : Fin V → Fin C → ℝ
  position_embedding_table : Fin bs → Fin C → ℝ
  blocks : List (Block C (C / nh) nh)
  ln_f : LayerNorm C
  lm_head : LinearLayer C V

/-- The logits of `GPTLanguageModel.forward` (lines 152-161) for one batch
row: token embedding plus position embedding, the stacked blocks in order,
final layer norm, language-model head.  Requires `T ≤ block_size` so that
the position lookup `arange(T)` stays in range. -/
noncomputable def GPTLanguageModel.logits {V bs C nh T : ℕ}
    (p : GPTLanguageModel V bs C nh) (hT : T ≤ bs) (idx : Fin T → Fin V) :
    Fin T → Fin V → ℝ :=
  let e := fun (t : Fin T) (c : Fin C) =>
    p.token_embedding (idx t) c + p.position_embedding_table (Fin.castLE hT t) c
  let x := p.blocks.foldl (fun a b => Block.forward hT b a) e
  fun t => p.lm_head.apply (p.ln_f.apply (x t))

/-- `logits.view(B*T, C)` and `targets.view(B*T)` (lines 166-168): row-major
flattening of the batch and time axes. -/
def flattenBT {B T : ℕ} {α : Type} (f : Fin B → Fin T → α) (n : Fin (B * T)) :
    α :=
  have hpos : 0 < T := by
    rcases Nat.eq_zero_or_pos T with h | h
    · subst h; exact absurd n.2 (by simp)
    · exact h
  f ⟨n.1 / T, (Nat.div_lt_iff_lt_mul hpos).2 n.2⟩ ⟨n.1 % T, Nat.mod_lt _ hpos⟩

/-- `F.cross_entropy` (line 169): mean over all rows of the negative log of
the softmax probability assigned to the target class. -/
noncomputable def crossEntropy {N V : ℕ} (lg : Fin N → Fin V → ℝ)
    (tg : Fin N → Fin V) : ℝ :=
  (∑ n, -Real.log (softmaxR (lg n) (tg n))) / N

/-- The type of the logits value returned by `forward` (line 171): the
`(B, T, vocab_size)` tensor of line 161 when `targets is None`; when targets
are given, line 167 rebinds `logits = logits.view(B*T, C)` before the
return, so the returned tensor is the flattened `(B*T, vocab_size)` view. -/
def forwardLogitsType (B T V : ℕ) {γ : Type} (targets : Option γ) : Type :=
  match targets with
  | none => Fin B → Fin T → Fin V → ℝ
  | some _ => Fin (B * T) → Fin V → ℝ

/-- `t.shape` of the logits value returned by `forward` (line 171):
`[B, T, vocab_size]` without targets, `[B*T, vocab_size]` with targets
(after the line-167 rebinding). -/
def GPTLanguageModel.returnedLogitsShape (B T V : ℕ) {γ : Type}
    (targets : Option γ) : List ℕ :=
  match targets with
  | none => [B, T, V]
  | some _ => [B * T, V]

/-- Real tensors of a given shape, axis by axis. -/
def tensorType : List ℕ → Type
  | [] => ℝ
  | d :: ds => Fin d → tensorType ds

lemma forwardLogitsType_eq_shape (B T V : ℕ) {γ : Type} (targets : Option γ) :
    forwardLogitsType B T V targets =
      tensorType (GPTLanguageModel.returnedLogitsShape B T V targets) := by
  cases targets <;> rfl

/-- `GPTLanguageModel.forward` (lines 152-171), batched.  Without targets it
returns the `(B, T, vocab_size)` logits and `None`.  With targets, line 167
rebinds `logits` to its flattened `view(B*T, C)` and line 171 returns that
flattened tensor together with the cross-entropy loss. -/
noncomputable def GPTLanguageModel.forward {V bs C nh B T : ℕ}
    (p : GPTLanguageModel V bs C nh) (hT : T ≤ bs)
    (idx : Fin B → Fin T → Fin V) (targets : Option (Fin B → Fin T → Fin V)) :
    forwardLogitsType B T V targets × Option ℝ :=
  match targets with
  | none => (fun b => p.logits hT (idx b), none)
  | some tg =>
      (flattenBT (fun b => p.logits hT (idx b)),
       some (crossEntropy (flattenBT (fun b => p.logits hT (idx b)))
         (flattenBT tg)))

/-- `GPTLanguageModel.forward` with the implicit context-length check made
explicit: `nn.Embedding(block_size, n_embd)` raises an index error as soon
as `torch.arange(T)` holds an index `≥ block_size`, i.e. exactly when
`T > block_size`, before any logits are produced. -/
noncomputable def GPTLanguageModel.forwardChecked {V bs C nh B T : ℕ}
    (p : GPTLanguageModel V bs C nh) (idx : Fin B → Fin T → Fin V)
    (targets : Option (Fin B → Fin T → Fin V)) :
    Except String (forwardLogitsType B T V targets × Option ℝ) :=
  if h : T ≤ bs then Except.ok (p.forward h idx targets)
  else Except.error "position embedding index out of range"

/-- Data for witnesses: a zero `nn.Linear` of any shape. -/
def lin0 {a b : ℕ} : LinearLayer a b := ⟨fun _ _ => 0, fun _ => 0⟩

/-- Data for witnesses: a zero feed-forward block. -/
def ff0 {c : ℕ} : FeedForward c := ⟨lin0, lin0⟩

/-- Data for witnesses: a layer norm with unit scale and zero shift. -/
def lnp0 {c : ℕ} : LayerNorm c := ⟨fun _ => 1, fun _ => 0⟩

/-- Data for witnesses: a one-head multi-head attention over one channel. -/
def mha0 : MultiHeadAttention 1 1 1 := ⟨fun _ => head0, lin0⟩

/-- Data for witnesses: a concrete transformer block with one head. -/
def block0 : Block 1 1 1 := ⟨mha0, ff0, lnp0, lnp0⟩

/-- Data for witnesses: a concrete model with one block and all dims 1. -/
def gpt0 : GPTLanguageModel 1 1 1 1 :=
  ⟨fun _ _ => 0, fun _ _ => 0, [block0], lnp0, lin0⟩

/-- Data for witnesses: the zero token batch of shape `(B, T) = (1, 1)`. -/
def idx0 : Fin 1 → Fin 1 → Fin 1 := fun _ _ => 0

/-- Data for witnesses: the first residual sum of `block0` on `x0`. -/
noncomputable def xp0 : Fin 1 → Fin 1 → ℝ :=
  fun t c => x0 t c +
    block0.sa.forward (le_refl 1) (fun u => block0.ln1.apply (x0 u)) t c

/-- C4: `Block.forward` returns `x'' = x' + FeedForward(LayerNorm2(x'))`
where `x' = x + MultiHeadAttention(LayerNorm1(x))`: pre-norm before each
sub-layer, both residual additions present. -/
theorem block_forward_equation {bs C hs nh T : ℕ} (hT : T ≤ bs)
    (p : Block C hs nh) (x xp : Fin T → Fin C → ℝ)
    (hxp : xp = fun t c =>
      x t c + p.sa.forward hT (fun u => p.ln1.apply (x u)) t c) :
    p.forward hT x =
      fun t c => xp t c + p.ffwd.forward (p.ln2.apply (xp t)) c := by
  subst hxp; rfl

theorem block_forward_equation_witness :
    (xp0 = fun t c =>
      x0 t c + block0.sa.forward (le_refl 1) (fun u => block0.ln1.apply (x0 u)) t c) ∧
    block0.forward (le_refl 1) x0 =
      fun t c => xp0 t c + block0.ffwd.forward (block0.ln2.apply (xp0 t)) c :=
  ⟨rfl, block_forward_equation (le_refl 1) block0 x0 xp0 rfl⟩

/-- C5: forward at `T = block_size` succeeds and yields logits (of shape
`(B, block_size, vocab_size)`, the type of `r.1`); forward at
`T = block_size + 1` fails with the position-embedding index error before
producing any logits. -/
theorem forward_context_boundary {V bs C nh B : ℕ}
    (p : GPTLanguageModel V bs C nh) (idx : Fin B → Fin bs → Fin V)
    (idx2 : Fin B → Fin (bs + 1) → Fin V) :
    (∃ r, p.forwardChecked idx none = Except.ok r) ∧
    p.forwardChecked idx2 none =
      Except.error "position embedding index out of range" := by
  constructor
  · exact ⟨_, by unfold GPTLanguageModel.forwardChecked; rw [dif_pos (le_refl bs)]⟩
  · unfold GPTLanguageModel.forwardChecked
    rw [dif_neg (by omega)]

/-- Data for C6: a concrete head for `n_embd = 5`, `head_size = 5 // 2 = 2`. -/
def head52 : Head 5 2 := ⟨fun _ _ => 0, fun _ _ => 0, fun _ _ => 0⟩

/-- C6 counterexample: with `n_embd = 5` and `n_head = 2` — not divisible —
`Block.__init__` does not fail: it returns a constructed block.  The source
contains no divisibility check and no `raise`. -/
theorem block_init_no_divisibility_validation :
    ¬ (5 % 2 = 0) ∧
    Block.init 5 2 (fun _ => head52) lin0 ff0 lnp0 lnp0 =
      Except.ok ⟨⟨fun _ => head52, lin0⟩, ff0, lnp0, lnp0⟩ :=
  ⟨by decide, rfl⟩

/-- C6 amended: model construction never validates divisibility of `n_embd`
by `n_head`: for every configuration, `Block.__init__` succeeds, silently
using `head_size = n_embd // n_head` (floor), so a non-divisible
configuration runs degraded instead of failing. -/
theorem block_init_always_ok (C nh : ℕ) (heads : Fin nh → Head C (C / nh))
    (proj : LinearLayer (nh * (C / nh)) C) (ffwd : FeedForward C)
    (ln1 ln2 : LayerNorm C) :
    Block.init C nh heads proj ffwd ln1 ln2 =
      Except.ok ⟨⟨heads, proj⟩, ffwd, ln1, ln2⟩ :=
  rfl

lemma softmaxR_nonneg {V : ℕ} (z : Fin V → ℝ) (j : Fin V) :
    0 ≤ softmaxR z j :=
  div_nonneg (Real.exp_pos _).le (Finset.sum_nonneg fun _ _ => (Real.exp_pos _).le)

lemma softmaxR_le_one {V : ℕ} (z : Fin V → ℝ) (j : Fin V) :
    softmaxR z j ≤ 1 := by
  unfold softmaxR
  have hS : 0 < ∑ k, Real.exp (z k) :=
    Finset.sum_pos (fun k _ => Real.exp_pos _) ⟨j, Finset.mem_univ j⟩
  rw [div_le_one hS]
  exact Finset.single_le_sum (fun k _ => (Real.exp_pos (z k)).le) (Finset.mem_univ j)

lemma crossEntropy_nonneg {N V : ℕ} (lg : Fin N → Fin V → ℝ)
    (tg : Fin N → Fin V) : 0 ≤ crossEntropy lg tg := by
  unfold crossEntropy
  refine div_nonneg (Finset.sum_nonneg fun n _ => ?_) (Nat.cast_nonneg N)
  have h1 : softmaxR (lg n) (tg n) ≤ 1 := softmaxR_le_one _ _
  have h0 : 0 ≤ softmaxR (lg n) (tg n) := softmaxR_nonneg _ _
  have hlog := Real.log_nonpos h0 h1
  linarith

/-- Data for the C8 counterexample: the spec's own instance — a model with
`vocab_size = 10`, `block_size = 8`, run on a token batch of shape
`(2, 8)`. -/
def gpt10 : GPTLanguageModel 10 8 1 1 :=
  ⟨fun _ _ => 0, fun _ _ => 0, [], lnp0, lin0⟩

/-- Data for the C8 counterexample: the zero token batch of shape `(2, 8)`
over a vocabulary of 10 tokens. -/
def idx28 : Fin 2 → Fin 8 → Fin 10 := fun _ _ => 0

/-- C8 counterexample: with targets, `forward` does not return logits of
shape `(B, T, vocab_size)`.  Line 167 rebinds `logits` to its
`view(B*T, C)` before line 171 returns it: at the spec's own instance
`(B, T, vocab_size) = (2, 8, 10)` the returned first component is the
flattened tensor, of shape `[16, 10]`, not `[2, 8, 10]`. -/
theorem forward_flattened_logits_counterexample :
    (gpt10.forward (le_refl 8) idx28 (some idx28)).1 =
      flattenBT (fun b => gpt10.logits (le_refl 8) (idx28 b)) ∧
    GPTLanguageModel.returnedLogitsShape 2 8 10 (some idx28) = [16, 10] ∧
    ¬ GPTLanguageModel.returnedLogitsShape 2 8 10 (some idx28) = [2, 8, 10] :=
  ⟨rfl, rfl, by decide⟩

/-- C8 (amended): without targets the forward pass returns the
`(B, T, vocab_size)` logits and `None`; with targets it returns the
flattened `(B*T, vocab_size)` view of the logits (line 167 rebinds
`logits` before line 171 returns) together with the cross-entropy of the
flattened logits against the flattened targets, a non-negative scalar.
The second component is `None` exactly when no targets are given. -/
theorem forward_return_contract {V bs C nh B T : ℕ}
    (p : GPTLanguageModel V bs C nh) (hT : T ≤ bs)
    (idx : Fin B → Fin T → Fin V) :
    ((p.forward hT idx none).1 = fun b => p.logits hT (idx b)) ∧
    (p.forward hT idx none).2 = none ∧
    GPTLanguageModel.returnedLogitsShape B T V
      (none : Option (Fin B → Fin T → Fin V)) = [B, T, V] ∧
    ∀ tg : Fin B → Fin T → Fin V,
      (p.forward hT idx (some tg)).1 =
        flattenBT (fun b => p.logits hT (idx b)) ∧
      GPTLanguageModel.returnedLogitsShape B T V (some tg) = [B * T, V] ∧
      (p.forward hT idx (some tg)).2 =
        some (crossEntropy (flattenBT fun b => p.logits hT (idx b)) (flattenBT tg)) ∧
      ∀ L : ℝ, (p.forward hT idx (some tg)).2 = some L → 0 ≤ L := by
  refine ⟨rfl, rfl, rfl, fun tg => ⟨rfl, rfl, rfl, fun L hL => ?_⟩⟩
  have hCE : (p.forward hT idx (some tg)).2 =
      some (crossEntropy (flattenBT fun b => p.logits hT (idx b)) (flattenBT tg)) :=
    rfl
  rw [hCE] at hL
  exact Option.some.inj hL ▸ crossEntropy_nonneg _ _

theorem forward_return_contract_witness :
    (1 : ℕ) ≤ 1 ∧
    (((gpt0.forward (le_refl 1) idx0 none).1 = fun b => gpt0.logits (le_refl 1) (idx0 b)) ∧
     (gpt0.forward (le_refl 1) idx0 none).2 = none ∧
     GPTLanguageModel.returnedLogitsShape 1 1 1
       (none : Option (Fin 1 → Fin 1 → Fin 1)) = [1, 1, 1] ∧
     ∀ tg : Fin 1 → Fin 1 → Fin 1,
       (gpt0.forward (le_refl 1) idx0 (some tg)).1 =
         flattenBT (fun b => gpt0.logits (le_refl 1) (idx0 b)) ∧
       GPTLanguageModel.returnedLogitsShape 1 1 1 (some tg) = [1 * 1, 1] ∧
       (gpt0.forward (le_refl 1) idx0 (some tg)).2 =
         some (crossEntropy (flattenBT fun b => gpt0.logits (le_refl 1) (idx0 b)) (flattenBT tg)) ∧
       ∀ L : ℝ, (gpt0.forward (le_refl 1) idx0 (some tg)).2 = some L → 0 ≤ L) :=
  ⟨by decide, forward_return_contract gpt0 (le_refl 1) idx0⟩

/-- `idx[:, -block_size:]` (line 177) for one batch row: keep the last
`min T block_size` tokens (the whole row when `T ≤ block_size`). -/
def cropCtx (bs : ℕ) {V T : ℕ} (row : Fin T → Fin V) :
    Fin (min T bs) → Fin V :=
  fun t => row ⟨T - min T bs + t.1,
    by have h1 : min T bs ≤ T := Nat.min_le_left T bs; omega⟩

/-- One iteration of `generate` for one batch row (lines 177-185): crop the
context to the last `block_size` tokens, run the forward pass (no targets),
take the logits of the final time step only, softmax, and draw one token id
with the supplied random sampler (`torch.multinomial`). -/
noncomputable def GPTLanguageModel.nextToken {V bs C nh T : ℕ}
    (p : GPTLanguageModel V bs C nh) (hbs : 0 < bs) (hT : 0 < T)
    (sample1 : (Fin V → ℝ) → Fin V) (row : Fin T → Fin V) : Fin V :=
  let lg := p.logits (Nat.min_le_right T bs) (cropCtx bs row)
  sample1 (softmaxR (lg ⟨min T bs - 1, by have h1 : 0 < min T bs := lt_min hT hbs; omega⟩))

/-- `torch.cat((idx, idx_next), dim=1)` (line 187): append one sampled
token at the end of each batch row. -/
def appendTok {B T V : ℕ} (idx : Fin B → Fin T → Fin V) (nt : Fin B → Fin V) :
    Fin B → Fin (T + 1) → Fin V :=
  fun b t => if h : t.1 < T then idx b ⟨t.1, h⟩ else nt b

/-- `GPTLanguageModel.generate` (lines 173-188): exactly `n` iterations,
each appending one sampled token.  `sampler k b` is the random draw
(`torch.multinomial`) consumed at the iteration with `k` tokens still to
produce, for batch row `b`; the random source is injected. -/
noncomputable def GPTLanguageModel.generate {V bs C nh B : ℕ}
    (p : GPTLanguageModel V bs C nh) (hbs : 0 < bs)
    (sampler : ℕ → Fin B → (Fin V → ℝ) → Fin V) :
    (n : ℕ) → {T : ℕ} → 0 < T → (Fin B → Fin T → Fin V) →
      Fin B → Fin (T + n) → Fin V
  | 0, _, _, idx => idx
  | n + 1, T, hT, idx => fun b t =>
      p.generate hbs sampler n (Nat.succ_pos T)
        (appendTok idx (fun b' => p.nextToken hbs hT (sampler n b') (idx b')))
        b (Fin.cast (by omega) t)

lemma generate_keeps_old {V bs C nh B : ℕ} (p : GPTLanguageModel V bs C nh)
    (hbs : 0 < bs) (sampler : ℕ → Fin B → (Fin V → ℝ) → Fin V) :
    ∀ (n : ℕ) {T : ℕ} (hT : 0 < T) (idx : Fin B → Fin T → Fin V) (b : Fin B)
      (t : Fin (T + n)) (ht : t.1 < T),
      p.generate hbs sampler n hT idx b t = idx b ⟨t.1, ht⟩
  | 0, T, hT, idx, b, t, ht => congrArg (idx b) (Fin.ext rfl)
  | n + 1, T, hT, idx, b, t, ht => by
      show p.generate hbs sampler n (Nat.succ_pos T)
          (appendTok idx fun b' => p.nextToken hbs hT (sampler n b') (idx b'))
          b (Fin.cast (by omega) t) = idx b ⟨t.1, ht⟩
      rw [generate_keeps_old p hbs sampler n (Nat.succ_pos T) _ b _
        (Nat.lt_succ_of_lt ht)]
      simp [appendTok, ht]

/-- C2: the generator performs exactly `n` iterations (the two unfolding
equations), each iteration cropping the context, taking the final-step
logits, applying softmax and drawing one sample (`nextToken`), appending it
at the end; the result has length `T + n` (its type), its first `T` entries
are the unchanged input, and every entry is a token id `< vocab_size`. -/
theorem generate_contract {V bs C nh B : ℕ} (p : GPTLanguageModel V bs C nh)
    (hbs : 0 < bs) (sampler : ℕ → Fin B → (Fin V → ℝ) → Fin V)
    {T : ℕ} (hT : 0 < T) (idx : Fin B → Fin T → Fin V) (n : ℕ) :
    (∀ (b : Fin B) (t : Fin T),
      p.generate hbs sampler n hT idx b (Fin.castLE (Nat.le_add_right T n) t) =
        idx b t) ∧
    (∀ (b : Fin B) (t : Fin (T + n)),
      (p.generate hbs sampler n hT idx b t).1 < V) ∧
    p.generate hbs sampler 0 hT idx = idx ∧
    p.generate hbs sampler (n + 1) hT idx = (fun b t =>
      p.generate hbs sampler n (Nat.succ_pos T)
        (appendTok idx (fun b' => p.nextToken hbs hT (sampler n b') (idx b')))
        b (Fin.cast (by omega) t)) := by
  refine ⟨fun b t => ?_, fun b t => (p.generate hbs sampler n hT idx b t).isLt,
    rfl, rfl⟩
  rw [generate_keeps_old p hbs sampler n hT idx b _ t.2]
  exact congrArg (idx b) (Fin.ext rfl)

/-- Data for witnesses: a deterministic stand-in for `torch.multinomial`. -/
def sampler0 : ℕ → Fin 1 → (Fin 1 → ℝ) → Fin 1 := fun _ _ _ => 0

theorem generate_contract_witness :
    ((0 : ℕ) < 1 ∧ (0 : ℕ) < 1) ∧
    ((∀ (b : Fin 1) (t : Fin 1),
      gpt0.generate Nat.one_pos sampler0 1 Nat.one_pos idx0 b
        (Fin.castLE (Nat.le_add_right 1 1) t) = idx0 b t) ∧
    (∀ (b : Fin 1) (t : Fin (1 + 1)),
      (gpt0.generate Nat.one_pos sampler0 1 Nat.one_pos idx0 b t).1 < 1) ∧
    gpt0.generate Nat.one_pos sampler0 0 Nat.one_pos idx0 = idx0 ∧
    gpt0.generate Nat.one_pos sampler0 (1 + 1) Nat.one_pos idx0 = (fun b t =>
      gpt0.generate Nat.one_pos sampler0 1 (Nat.succ_pos 1)
        (appendTok idx0 (fun b' =>
          gpt0.nextToken Nat.one_pos Nat.one_pos (sampler0 1 b') (idx0 b')))
        b (Fin.cast (by omega) t))) :=
  ⟨⟨Nat.one_pos, Nat.one_pos⟩,
    generate_contract gpt0 Nat.one_pos sampler0 Nat.one_pos idx0 1⟩

/-- One iteration of the training loop (lines 198-209), over an abstract
parameter state `α`.  `optStep i` is the whole gradient update performed
with the batch drawn at iteration `i` (`get_batch`, forward, `zero_grad`,
`backward`, `optimizer.step()`); `estimate_loss` reads but never writes the
parameters.  In the source all of these statements are indented inside the
single `if iter % eval_interval == 0 or iter == max_iters - 1` block. -/
def trainIter {α : Type} (maxIters evalInterval : ℕ) (optStep : ℕ → α → α)
    (i : ℕ) (s : α) : α :=
  if i % evalInterval = 0 ∨ i = maxIters - 1 then optStep i s else s

/-- The training loop `for iter in range(max_iters)` (line 198). -/
def trainLoop {α : Type} (maxIters evalInterval : ℕ) (optStep : ℕ → α → α)
    (init : α) : α :=
  (List.range maxIters).foldl
    (fun s i => trainIter maxIters evalInterval optStep i s) init

/-- C9: the optimizer step runs exactly on the iterations satisfying
`iter % eval_interval == 0 or iter == max_iters - 1` — the same conditional
as loss evaluation — and on every other iteration the parameter state is
returned unchanged; the loop is the fold of these iterations. -/
theorem training_step_placement {α : Type} (maxIters evalInterval : ℕ)
    (optStep : ℕ → α → α) (i : ℕ) (s : α) :
    (¬ (i % evalInterval = 0 ∨ i = maxIters - 1) →
      trainIter maxIters evalInterval optStep i s = s) ∧
    ((i % evalInterval = 0 ∨ i = maxIters - 1) →
      trainIter maxIters evalInterval optStep i s = optStep i s) ∧
    trainLoop maxIters evalInterval optStep s =
      (List.range maxIters).foldl
        (fun s' i' => trainIter maxIters evalInterval optStep i' s') s :=
  ⟨fun h => if_neg h, fun h => if_pos h, rfl⟩

theorem training_step_placement_witness :
    (¬ ((1 : ℕ) % 500 = 0 ∨ (1 : ℕ) = 5000 - 1) →
      trainIter 5000 500 (fun _ s => s + 1) 1 (0 : ℕ) = 0) ∧
    (((1 : ℕ) % 500 = 0 ∨ (1 : ℕ) = 5000 - 1) →
      trainIter 5000 500 (fun _ s => s + 1) 1 (0 : ℕ) = (fun _ s => s + 1) 1 0) ∧
    trainLoop 5000 500 (fun _ s => s + 1) (0 : ℕ) =
      (List.range 5000).foldl
        (fun s' i' => trainIter 5000 500 (fun _ s => s + 1) i' s') 0 :=
  training_step_placement 5000 500 (fun _ s => s + 1) 1 0

lemma head_wei_congr {bs C hs T : ℕ} (hT : T ≤ bs) (p : Head C hs)
    {x y : Fin T → Fin C → ℝ} {i : Fin T}
    (h : ∀ u : Fin T, u.1 ≤ i.1 → x u = y u) :
    p.wei hT x i = p.wei hT y i := by
  have hm : p.masked hT x i = p.masked hT y i := by
    funext j
    unfold Head.masked maskedFill
    by_cases h0 : slicedTril bs hT i j = 0
    · simp [h0]
    · have h1 := slicedTril_eq_zero_iff hT i j
      have h2 : ¬ ((i : ℕ) < (j : ℕ)) := fun hc => h0 (h1.2 hc)
      have hji : (j : ℕ) ≤ (i : ℕ) := by omega
      simp only [h0, if_neg, not_false_iff]
      congr 1
      unfold Head.scores
      rw [h i (Nat.le_refl _), h j hji]
  unfold Head.wei
  rw [hm]

lemma head_out_congr {bs C hs T : ℕ} (hT : T ≤ bs) (p : Head C hs)
    {x y : Fin T → Fin C → ℝ} {i : Fin T}
    (h : ∀ u : Fin T, u.1 ≤ i.1 → x u = y u) :
    p.forward hT x i = p.forward hT y i := by
  funext s
  unfold Head.forward
  refine Finset.sum_congr rfl fun j _ => ?_
  by_cases hj : j.1 ≤ i.1
  · rw [head_wei_congr hT p h, h j hj]
  · rw [Head.wei_future hT p x i j (by omega),
      Head.wei_future hT p y i j (by omega)]
    simp

lemma mha_out_congr {bs C hs nh T : ℕ} (hT : T ≤ bs)
    (p : MultiHeadAttention C hs nh) {x y : Fin T → Fin C → ℝ} {i : Fin T}
    (h : ∀ u : Fin T, u.1 ≤ i.1 → x u = y u) :
    p.forward hT x i = p.forward hT y i := by
  unfold MultiHeadAttention.forward
  have hH : (fun (hd : Fin nh) (s : Fin hs) => (p.heads hd).forward hT x i s) =
      (fun (hd : Fin nh) (s : Fin hs) => (p.heads hd).forward hT y i s) := by
    funext hd s
    rw [head_out_congr hT (p.heads hd) h]
  rw [hH]

lemma block_out_congr {bs C hs nh T : ℕ} (hT : T ≤ bs) (p : Block C hs nh)
    {x y : Fin T → Fin C → ℝ} {i : Fin T}
    (h : ∀ u : Fin T, u.1 ≤ i.1 → x u = y u) :
    ∀ u : Fin T, u.1 ≤ i.1 → p.forward hT x u = p.forward hT y u := by
  intro u hu
  have hsa : ∀ w : Fin T, w.1 ≤ i.1 →
      p.sa.forward hT (fun v => p.ln1.apply (x v)) w =
      p.sa.forward hT (fun v => p.ln1.apply (y v)) w := by
    intro w hw
    exact mha_out_congr hT p.sa
      (fun v hv => congrArg p.ln1.apply (h v (Nat.le_trans hv hw)))
  have ex : p.forward hT x u = fun c =>
      (x u c + p.sa.forward hT (fun v => p.ln1.apply (x v)) u c) +
      p.ffwd.forward (p.ln2.apply
        (fun c' => x u c' + p.sa.forward hT (fun v => p.ln1.apply (x v)) u c')) c :=
    rfl
  have ey : p.forward hT y u = fun c =>
      (y u c + p.sa.forward hT (fun v => p.ln1.apply (y v)) u c) +
      p.ffwd.forward (p.ln2.apply
        (fun c' => y u c' + p.sa.forward hT (fun v => p.ln1.apply (y v)) u c')) c :=
    rfl
  rw [ex, ey, h u hu, hsa u hu]

lemma blocks_foldl_congr {bs C hs nh T : ℕ} (hT : T ≤ bs) :
    ∀ (bl : List (Block C hs nh)) {x y : Fin T → Fin C → ℝ} {i : Fin T},
      (∀ u : Fin T, u.1 ≤ i.1 → x u = y u) →
      ∀ u : Fin T, u.1 ≤ i.1 →
        (bl.foldl (fun a b => Block.forward hT b a) x) u =
        (bl.foldl (fun a b => Block.forward hT b a) y) u
  | [], _, _, _, h, u, hu => h u hu
  | b :: bl, _, _, _, h, u, hu =>
      blocks_foldl_congr hT bl (block_out_congr hT b h) u hu

/-- C1: causality.  For every valid context (`T ≤ block_size`) and every
position `i`, the logits of the forward pass (dropout disabled) at `(b, i)`
are unchanged between two runs whose tokens in row `b` agree at all
positions `j ≤ i` — the tokens at positions `j > i` may differ
arbitrarily. -/
theorem causality {V bs C nh B T : ℕ} (p : GPTLanguageModel V bs C nh)
    (hT : T ≤ bs) (idx idx2 : Fin B → Fin T → Fin V) (b : Fin B) (i : Fin T)
    (h : ∀ j : Fin T, j.1 ≤ i.1 → idx b j = idx2 b j) :
    (p.forward hT idx none).1 b i = (p.forward hT idx2 none).1 b i := by
  show p.logits hT (idx b) i = p.logits hT (idx2 b) i
  have hemb : ∀ u : Fin T, u.1 ≤ i.1 →
      (fun (t : Fin T) (c : Fin C) => p.token_embedding (idx b t) c +
        p.position_embedding_table (Fin.castLE hT t) c) u =
      (fun (t : Fin T) (c : Fin C) => p.token_embedding (idx2 b t) c +
        p.position_embedding_table (Fin.castLE hT t) c) u := by
    intro u hu
    funext c
    show p.token_embedding (idx b u) c + p.position_embedding_table (Fin.castLE hT u) c =
      p.token_embedding (idx2 b u) c + p.position_embedding_table (Fin.castLE hT u) c
    rw [h u hu]
  have hx := blocks_foldl_congr hT p.blocks hemb i (Nat.le_refl _)
  have ex : p.logits hT (idx b) i = p.lm_head.apply (p.ln_f.apply
      ((p.blocks.foldl (fun a bl => Block.forward hT bl a)
        (fun (t : Fin T) (c : Fin C) => p.token_embedding (idx b t) c +
          p.position_embedding_table (Fin.castLE hT t) c)) i)) := rfl
  have ey : p.logits hT (idx2 b) i = p.lm_head.apply (p.ln_f.apply
      ((p.blocks.foldl (fun a bl => Block.forward hT bl a)
        (fun (t : Fin T) (c : Fin C) => p.token_embedding (idx2 b t) c +
          p.position_embedding_table (Fin.castLE hT t) c)) i)) := rfl
  rw [ex, ey, hx]

/-- Data for the causality witness: a two-token model with two channels. -/
def head22 : Head 2 2 := ⟨fun _ _ => 0, fun _ _ => 0, fun _ _ => 0⟩

/-- Data for the causality witness: one head over two channels. -/
def mha22 : MultiHeadAttention 2 2 1 := ⟨fun _ => head22, lin0⟩

/-- Data for the causality witness: a block for `n_embd = 2`, `n_head = 1`. -/
def block22 : Block 2 2 1 := ⟨mha22, ff0, lnp0, lnp0⟩

/-- Data for the causality witness: a model with `vocab_size = 2`,
`block_size = 2`, `n_embd = 2`, `n_head = 1`, one block. -/
def gpt2 : GPTLanguageModel 2 2 2 1 :=
  ⟨fun _ _ => 0, fun _ _ => 0, [block22], lnp0, lin0⟩

/-- Data for the causality witness: two batches that agree at position 0
and differ at the future position 1. -/
def idxA : Fin 1 → Fin 2 → Fin 2 := fun _ _ => 0

/-- Second batch for the causality witness, see `idxA`. -/
def idxB : Fin 1 → Fin 2 → Fin 2 := fun _ t => if t.1 = 1 then 1 else 0

theorem causality_witness :
    ((2 : ℕ) ≤ 2 ∧ (∀ j : Fin 2, j.1 ≤ (0 : Fin 2).1 → idxA 0 j = idxB 0 j)) ∧
    (gpt2.forward (le_refl 2) idxA none).1 0 0 =
      (gpt2.forward (le_refl 2) idxB none).1 0 0 :=
  ⟨⟨le_refl 2, by decide⟩,
    causality gpt2 (le_refl 2) idxA idxB 0 0 (by decide)⟩
